import Mathlib

/-
Verification of the aligned-bucket sampling and coordination engine of
price-diff-alerts against its specification.

The embedding mirrors the Go sources:
  internal/service (show.go)       : Service.ProcessBucket / executeBucket /
                                     acquireLock / classifyDeviation
  internal/scheduler (fetcher.go)  : Scheduler.Run / nextTick
  internal/app/backfill.go         : App.Backfill bucket enumeration / alignForward
  internal/storage                 : UpsertRateSample, MarkSampleErrored

Decimal values follow github.com/shopspring/decimal: an arbitrary-precision
integer coefficient together with a base-10 exponent; Div rounds the quotient
to DivisionPrecision = 16 fractional digits, half away from zero (DivRound on
top of the truncated QuoRem).  Time instants are modelled as integers
(nanoseconds since the Go zero time); Go time.Truncate rounds down to a multiple of
the interval, which for a positive interval is subtraction of the Euclidean
remainder.
-/

deriving instance DecidableEq for Except

namespace PriceDiff

/-- Shopspring decimal: coefficient times 10 to the exponent. -/
structure Dec where
  value : ℤ
  exp : ℤ
deriving DecidableEq, Repr

/-- Rational value denoted by a decimal. -/
def Dec.toRat (d : Dec) : ℚ := (d.value : ℚ) * (10 : ℚ) ^ d.exp

/-- decimal.IsZero: the coefficient is zero. -/
def Dec.isZero (d : Dec) : Bool := d.value == 0

/-- decimal.New(value, exp). -/
def Dec.new (v e : ℤ) : Dec := ⟨v, e⟩

/-- decimal.NewFromInt. -/
def Dec.ofInt (n : ℤ) : Dec := ⟨n, 0⟩

/-- decimal.Abs. -/
def Dec.abs (d : Dec) : Dec := ⟨|d.value|, d.exp⟩

/-- Rescale to a smaller-or-equal exponent by multiplying the coefficient,
as RescalePair does before coefficient-wise comparison or addition. -/
def Dec.rescaleValue (d : Dec) (e : ℤ) : ℤ := d.value * 10 ^ (d.exp - e).toNat

/-- decimal.Add: rescale both operands to the smaller exponent, add coefficients. -/
def Dec.add (a b : Dec) : Dec :=
  let e := min a.exp b.exp
  ⟨a.rescaleValue e + b.rescaleValue e, e⟩

/-- decimal.Sub: rescale both operands to the smaller exponent, subtract. -/
def Dec.sub (a b : Dec) : Dec :=
  let e := min a.exp b.exp
  ⟨a.rescaleValue e - b.rescaleValue e, e⟩

/-- decimal.Mul: multiply coefficients, add exponents. -/
def Dec.mul (a b : Dec) : Dec := ⟨a.value * b.value, a.exp + b.exp⟩

/-- decimal.Cmp as the sign of the rescaled coefficient difference. -/
def Dec.cmpInt (a b : Dec) : ℤ :=
  let e := min a.exp b.exp
  Int.sign (a.rescaleValue e - b.rescaleValue e)

/-- decimal.GreaterThan: Cmp returns 1. -/
def Dec.greaterThan (a b : Dec) : Bool := a.cmpInt b == 1

/-- decimal.Sign of the value. -/
def Dec.sign (d : Dec) : ℤ := Int.sign d.value

/-- decimal.QuoRem(d2, precision): truncated division after scaling the
dividend (or the divisor, when the exponent budget e is negative) so the
quotient carries exponent -precision.  Go big.Int QuoRem is truncated
division, i.e. Int.tdiv / Int.tmod. -/
def Dec.quoRem (d d2 : Dec) (precision : ℤ) : Dec × Dec :=
  let scale := -precision
  let e := d.exp - d2.exp - scale
  if e < 0 then
    let aa := d.value
    let bb := d2.value * 10 ^ (-e).toNat
    (⟨aa.tdiv bb, scale⟩, ⟨aa.tmod bb, d.exp⟩)
  else
    let aa := d.value * 10 ^ e.toNat
    let bb := d2.value
    (⟨aa.tdiv bb, scale⟩, ⟨aa.tmod bb, scale + d2.exp⟩)

/-- decimal.DivRound: quotient rounded to the given precision, digit 5 rounded
away from zero; the rounding decision compares twice the remainder with the
divisor. -/
def Dec.divRound (d d2 : Dec) (precision : ℤ) : Dec :=
  let qr := d.quoRem d2 precision
  let q := qr.1
  let r := qr.2
  let r2 : Dec := ⟨2 * |r.value|, r.exp + precision⟩
  let c := r2.cmpInt d2.abs
  if c < 0 then q
  else if d.value.sign * d2.value.sign < 0 then q.sub (Dec.new 1 (-precision))
  else q.add (Dec.new 1 (-precision))

/-- decimal.Div: DivRound at DivisionPrecision = 16. -/
def Dec.div (d d2 : Dec) : Dec := d.divRound d2 16

/-- The deviation computed in Service.executeBucket:
marketRate.Div(officialRate).Sub(decimal.NewFromInt(1)).Mul(decimal.NewFromInt(100)). -/
def deviation (marketRate officialRate : Dec) : Dec :=
  ((marketRate.div officialRate).sub (Dec.ofInt 1)).mul (Dec.ofInt 100)

/-- classifyDeviation from internal/service. -/
def classifyDeviation (d : Dec) : String :=
  if d.sign = 1 then "up"
  else if d.sign = -1 then "down"
  else "flat"

/-- storage.RateSample, bucket timestamps as integers. -/
structure RateSample where
  bucket : ℤ
  officialRate : Dec
  marketRate : Dec
  deviationPct : Dec
  notionalUSDE : Dec
  cowQuality : String
  cowQuote : String
  blockNumber : Option ℤ
  status : String
  error : Option String
  createdAt : ℤ
deriving DecidableEq, Repr

/-- storage.AlertRecord as built by executeBucket (store-assigned id and
created_at omitted: they are produced by the database on insert). -/
structure AlertRecord where
  sampleTS : ℤ
  deviationPct : Dec
  thresholdPct : Dec
  direction : String
  channels : List String
deriving DecidableEq, Repr

/-- Environment of one ProcessBucket call: the service configuration together
with the outcomes the external collaborators would produce if invoked. -/
structure Env where
  lockKey : ℤ
  hasLocker : Bool
  lockAcquire : Except String Bool
  officialResult : Except String (Dec × ℕ)
  marketResult : Except String (Dec × String × String)
  hasStore : Bool
  upsertOk : Bool
  alertsOn : Bool
  hasNotifier : Bool
  hasAlertStore : Bool
  threshold : Dec
  notional : Dec
  channels : List String
  now : ℤ
deriving DecidableEq, Repr

/-- Outcome of Service.acquireLock: backend error, contention (proceed=false,
nil error), or acquired; hasUnlock records whether a release closure was
returned (the no-op gate returns a nil closure). -/
inductive LockOutcome where
  | err (msg : String)
  | contention
  | acquired (hasUnlock : Bool)
deriving DecidableEq, Repr

/-- Service.acquireLock: no-op gate when the key is 0 or no locking backend is
configured; otherwise consult the backend. -/
def acquireLock (env : Env) : LockOutcome :=
  if env.lockKey = 0 ∨ env.hasLocker = false then .acquired false
  else
    match env.lockAcquire with
    | .error m => .err ("acquire advisory lock: " ++ m)
    | .ok false => .contention
    | .ok true => .acquired true

/-- Side effects of one bucket execution: the sample handed to
UpsertRateSample (if a store is wired and the code reached the upsert), the
record handed to InsertAlert, and whether Notify was invoked. -/
structure Effects where
  sampleUpsert : Option RateSample
  alertInsert : Option AlertRecord
  notifyAttempt : Bool
deriving DecidableEq, Repr

/-- No side effects. -/
def Effects.nil : Effects := ⟨none, none, false⟩

/-- Service.executeBucket: fetch official (fail fast on error or zero rate),
fetch market (fail fast on error), compute the deviation, upsert the sample
with status complete (persistence failure only logged), and when alerting is
on, a notifier is wired, the threshold is nonzero and |deviation| exceeds it,
insert the alert record and notify (failures only logged). -/
def executeBucket (env : Env) (bucket : ℤ) : Except String Unit × Effects :=
  match env.officialResult with
  | .error m => (.error ("fetch official rate: " ++ m), Effects.nil)
  | .ok (officialRate, blockNumber) =>
    if officialRate.isZero then
      (.error "official rate returned zero", Effects.nil)
    else
      match env.marketResult with
      | .error m => (.error ("fetch market rate: " ++ m), Effects.nil)
      | .ok (marketRate, quote, quality) =>
        let dev := deviation marketRate officialRate
        let sample : RateSample :=
          { bucket := bucket
            officialRate := officialRate
            marketRate := marketRate
            deviationPct := dev
            notionalUSDE := env.notional
            cowQuality := quality
            cowQuote := quote
            blockNumber := if blockNumber ≠ 0 then some (blockNumber : ℤ) else none
            status := "complete"
            error := none
            createdAt := env.now }
        let sampleEff : Option RateSample := if env.hasStore then some sample else none
        if env.alertsOn && env.hasNotifier && !env.threshold.isZero
            && dev.abs.greaterThan env.threshold then
          let record : AlertRecord :=
            { sampleTS := bucket
              deviationPct := dev
              thresholdPct := env.threshold
              direction := classifyDeviation dev
              channels := env.channels }
          (.ok (), ⟨sampleEff, if env.hasAlertStore then some record else none, true⟩)
        else
          (.ok (), ⟨sampleEff, none, false⟩)

/-- Service.ProcessBucket: gate first; backend error propagates, contention is
a silent nil-return skip, otherwise execute the bucket. -/
def processBucket (env : Env) (bucket : ℤ) : Except String Unit × Effects :=
  match acquireLock env with
  | .err m => (.error m, Effects.nil)
  | .contention => (.ok (), Effects.nil)
  | .acquired _ => executeBucket env bucket

/-- Whether an Except result is the error branch (a non-nil Go error). -/
def exceptIsError (e : Except String Unit) : Bool :=
  match e with
  | .error _ => true
  | .ok _ => false

/-- acquireLock hit a backend error. -/
def lockErrB (env : Env) : Bool :=
  match acquireLock env with
  | .err _ => true
  | _ => false

/-- acquireLock acquired (possibly via the no-op gate). -/
def lockAcquiredB (env : Env) : Bool :=
  match acquireLock env with
  | .acquired _ => true
  | _ => false

/-- The official fetch would fail. -/
def officialErrB (env : Env) : Bool :=
  match env.officialResult with
  | .error _ => true
  | .ok _ => false

/-- The official fetch would succeed with a zero rate. -/
def officialZeroB (env : Env) : Bool :=
  match env.officialResult with
  | .ok (r, _) => r.isZero
  | .error _ => false

/-- The market fetch would fail. -/
def marketErrB (env : Env) : Bool :=
  match env.marketResult with
  | .error _ => true
  | .ok _ => false

/-- The rate_samples table, rows keyed by the bucket_ts column. -/
def SampleTable := List RateSample

/-- storage.UpsertRateSample: INSERT .. ON CONFLICT (bucket_ts) DO UPDATE - a
conflicting row has every inserted column replaced (created_at is
database-assigned and kept), otherwise the row is appended. -/
def upsertRateSample (tbl : List RateSample) (s : RateSample) : List RateSample :=
  if tbl.any (fun r => r.bucket == s.bucket) then
    tbl.map (fun r => if r.bucket == s.bucket then { s with createdAt := r.createdAt } else r)
  else tbl ++ [s]

/-- Apply the sample-upsert effect of a bucket execution to the table: nothing
was attempted, or the attempted write failed (logged, store unchanged), or it
succeeded. -/
def applySampleEffect (eff : Effects) (upsertOk : Bool) (tbl : List RateSample) :
    List RateSample :=
  match eff.sampleUpsert with
  | none => tbl
  | some s => if upsertOk then upsertRateSample tbl s else tbl

/-- storage.MarkSampleErrored: UPDATE rate_samples SET status, error WHERE
bucket_ts matches; pgx.ErrNoRows when no row was affected.  Returns the Go
error outcome together with the table after the statement. -/
def markSampleErrored (tbl : List RateSample) (bucket : ℤ) (msg : String) :
    Except String Unit × List RateSample :=
  let newTbl := tbl.map (fun r =>
    if r.bucket == bucket then { r with status := "errored", error := some msg } else r)
  let affected := tbl.countP (fun r => r.bucket == bucket)
  (if affected == 0 then .error "no rows in result set" else .ok (), newTbl)

/-- Go time.Truncate for a positive interval: round down to a multiple of the
interval (Euclidean remainder subtracted). -/
def truncTime (t I : ℤ) : ℤ := t - t.emod I

/-- Scheduler.nextTick: alignment off yields now + interval; alignment on
truncates down and advances by one interval unless the truncation is strictly
after now. -/
def nextTick (align : Bool) (I : ℤ) (now : ℤ) : ℤ :=
  if !align then now + I
  else
    let bucket := truncTime now I
    if !(decide (now < bucket)) then bucket + I else bucket

/-- One observable event at the scheduler wait point: none is external
cancellation observed during the wait; some e is the timer firing with the
tick function then returning an error iff e. -/
def SchedEvent := ℤ × Option Bool

/-- Outcome of running the scheduler loop over a finite prefix of events:
cancelled (Run returned ctx.Err()), or still running with the next armed
boundary. -/
inductive RunOutcome where
  | cancelled
  | running (next : ℤ)
deriving DecidableEq, Repr

/-- Whether the loop has terminated. -/
def RunOutcome.isCancelled : RunOutcome → Bool
  | .cancelled => true
  | .running _ => false

/-- The for-loop of Scheduler.Run, one iteration per event: if the armed boundary
is already past the current wall clock (negative delay), recompute it from
now; a cancellation during the wait returns, a timer fire runs the tick
(its error is logged and discarded) and the loop continues at
boundary + interval. -/
def runLoop (I : ℤ) (align : Bool) : ℤ → List (ℤ × Option Bool) → RunOutcome
  | next, [] => .running next
  | next, (now, ev) :: rest =>
    let armed := if next - now < 0 then nextTick align I now else next
    match ev with
    | none => .cancelled
    | some _tickErr => runLoop I align (armed + I) rest

/-- Events in which every timer fires exactly at its armed boundary, tagged
with the tick outcomes; used to state the fixed-cadence property. -/
def onTimeFires (next I : ℤ) : List Bool → List (ℤ × Option Bool)
  | [] => []
  | e :: es => (next, some e) :: onTimeFires (next + I) I es

/-- alignForward from internal/app/backfill.go: truncate, and advance one
interval when truncation moved backwards. -/
def alignForward (t I : ℤ) : ℤ :=
  let truncated := truncTime t I
  if truncated < t then truncated + I else truncated

/-- The bucket enumeration of the App.Backfill for-loop
(bucket := start; bucket < end; bucket += interval), fuel-bounded. -/
def bucketLoop (I toEnd : ℤ) : ℕ → ℤ → List ℤ
  | 0, _ => []
  | Nat.succ n, b => if b < toEnd then b :: bucketLoop I toEnd n (b + I) else []

/-- The buckets App.Backfill hands to ProcessBucket over the half-open range:
from alignForward(lo) while strictly before hi, stepping by the interval. -/
def backfillBuckets (I lo hi : ℤ) : List ℤ :=
  bucketLoop I hi (hi - alignForward lo I).toNat (alignForward lo I)

/-- A concrete service environment used to instantiate theorems on sample
inputs: no-op gate, healthy collaborators, threshold 2 percent. -/
def envBase : Env :=
  { lockKey := 0
    hasLocker := false
    lockAcquire := .ok true
    officialResult := .ok (⟨1, 0⟩, 100)
    marketResult := .ok (⟨1, 0⟩, "raw", "optimal")
    hasStore := true
    upsertOk := true
    alertsOn := true
    hasNotifier := true
    hasAlertStore := true
    threshold := ⟨2, 0⟩
    notional := ⟨100000, 0⟩
    channels := ["telegram"]
    now := 0 }

/-- Environment whose official source reports a zero rate. -/
def envZeroRate : Env := { envBase with officialResult := .ok (⟨0, 5⟩, 7) }

/-- Environment at official 100, market 103 (deviation 3 percent). -/
def envDev3 : Env :=
  { envBase with
    officialResult := .ok (⟨100, 0⟩, 1)
    marketResult := .ok (⟨103, 0⟩, "raw", "optimal") }

/-- Environment at official 100, market 102 (deviation exactly the 2 percent
threshold). -/
def envDev2 : Env :=
  { envBase with
    officialResult := .ok (⟨100, 0⟩, 1)
    marketResult := .ok (⟨102, 0⟩, "raw", "optimal") }

/-- Environment whose official source reports a strictly negative rate. -/
def envNegRate : Env :=
  { envBase with
    officialResult := .ok (⟨-5, 0⟩, 1)
    marketResult := .ok (⟨1, 0⟩, "raw", "optimal") }

/-- Environment with a contended locking backend but lock key 0. -/
def envKeyZero : Env :=
  { envBase with lockKey := 0, hasLocker := true, lockAcquire := .ok false }

/-- A concrete stored sample row keyed by the given bucket. -/
def sampleRow (b : ℤ) : RateSample :=
  { bucket := b
    officialRate := ⟨1, 0⟩
    marketRate := ⟨1, 0⟩
    deviationPct := ⟨0, 0⟩
    notionalUSDE := ⟨100000, 0⟩
    cowQuality := "optimal"
    cowQuote := "raw"
    blockNumber := none
    status := "complete"
    error := none
    createdAt := 0 }

lemma ten_ne_zero_q : (10 : ℚ) ≠ 0 := by norm_num

lemma ten_pow_neg16 : (10 : ℚ) ^ (-16 : ℤ) = ((10 : ℚ) ^ (16 : ℕ))⁻¹ := by
  rw [zpow_neg]
  congr 1
  rw [show (16 : ℤ) = ((16 : ℕ) : ℤ) from rfl, zpow_natCast]

lemma Dec.toRat_eq_zero_iff (d : Dec) : d.toRat = 0 ↔ d.value = 0 := by
  unfold Dec.toRat
  rw [mul_eq_zero]
  constructor
  · rintro (h | h)
    · exact_mod_cast h
    · exact absurd h (zpow_ne_zero _ ten_ne_zero_q)
  · intro h
    left
    exact_mod_cast h

lemma Dec.toRat_ne_zero {d : Dec} (h : d.value ≠ 0) : d.toRat ≠ 0 := by
  intro hc
  exact h ((Dec.toRat_eq_zero_iff d).mp hc)

lemma Dec.isZero_iff (d : Dec) : d.isZero = true ↔ d.toRat = 0 := by
  unfold Dec.isZero
  rw [Dec.toRat_eq_zero_iff]
  exact beq_iff_eq

lemma Dec.rescale_cast {d : Dec} {e : ℤ} (h : e ≤ d.exp) :
    ((d.rescaleValue e : ℤ) : ℚ) * (10 : ℚ) ^ e = d.toRat := by
  unfold Dec.rescaleValue Dec.toRat
  push_cast
  rw [← zpow_natCast (10 : ℚ) (d.exp - e).toNat, Int.toNat_of_nonneg (by omega),
    mul_assoc, ← zpow_add₀ ten_ne_zero_q]
  have hsum : d.exp - e + e = d.exp := by ring
  rw [hsum]

lemma Dec.toRat_sub (a b : Dec) : (a.sub b).toRat = a.toRat - b.toRat := by
  have ha := Dec.rescale_cast (d := a) (e := min a.exp b.exp) (min_le_left _ _)
  have hb := Dec.rescale_cast (d := b) (e := min a.exp b.exp) (min_le_right _ _)
  unfold Dec.sub
  rw [← ha, ← hb]
  unfold Dec.toRat
  push_cast
  ring

lemma Dec.toRat_add (a b : Dec) : (a.add b).toRat = a.toRat + b.toRat := by
  have ha := Dec.rescale_cast (d := a) (e := min a.exp b.exp) (min_le_left _ _)
  have hb := Dec.rescale_cast (d := b) (e := min a.exp b.exp) (min_le_right _ _)
  unfold Dec.add
  rw [← ha, ← hb]
  unfold Dec.toRat
  push_cast
  ring

lemma Dec.toRat_mul (a b : Dec) : (a.mul b).toRat = a.toRat * b.toRat := by
  unfold Dec.mul Dec.toRat
  push_cast
  rw [zpow_add₀ ten_ne_zero_q]
  ring

lemma Dec.toRat_ofInt (n : ℤ) : (Dec.ofInt n).toRat = (n : ℚ) := by
  unfold Dec.ofInt Dec.toRat
  norm_num

lemma Dec.toRat_abs (d : Dec) : d.abs.toRat = |d.toRat| := by
  unfold Dec.abs Dec.toRat
  rw [abs_mul, abs_of_pos (a := (10 : ℚ) ^ d.exp) (zpow_pos (by norm_num) _)]
  push_cast
  ring

lemma Dec.cmpInt_eq_one_iff (a b : Dec) : a.cmpInt b = 1 ↔ b.toRat < a.toRat := by
  have ha := Dec.rescale_cast (d := a) (e := min a.exp b.exp) (min_le_left _ _)
  have hb := Dec.rescale_cast (d := b) (e := min a.exp b.exp) (min_le_right _ _)
  unfold Dec.cmpInt
  rw [Int.sign_eq_one_iff_pos]
  constructor
  · intro h
    rw [← ha, ← hb]
    have hq : (0 : ℚ) < ((a.rescaleValue (min a.exp b.exp)
        - b.rescaleValue (min a.exp b.exp) : ℤ) : ℚ) := by exact_mod_cast h
    have hpow : (0 : ℚ) < (10 : ℚ) ^ (min a.exp b.exp) := zpow_pos (by norm_num) _
    push_cast at hq ⊢
    nlinarith
  · intro h
    rw [← ha, ← hb] at h
    have hpow : (0 : ℚ) < (10 : ℚ) ^ (min a.exp b.exp) := zpow_pos (by norm_num) _
    have hq : (0 : ℚ) < ((a.rescaleValue (min a.exp b.exp)
        - b.rescaleValue (min a.exp b.exp) : ℤ) : ℚ) := by
      push_cast
      nlinarith
    exact_mod_cast hq

lemma Dec.greaterThan_iff (a b : Dec) : a.greaterThan b = true ↔ b.toRat < a.toRat := by
  unfold Dec.greaterThan
  rw [beq_iff_eq]
  exact Dec.cmpInt_eq_one_iff a b

lemma exact_key_neg (mv me ov oe z : ℤ) (hz : (mv : ℚ) * (10 : ℚ) ^ me
      = (z : ℚ) * (10 : ℚ) ^ (-16 : ℤ) * ((ov : ℚ) * (10 : ℚ) ^ oe))
    (he : me - oe + 16 < 0) :
    mv = z * (ov * 10 ^ (-(me - oe + 16)).toNat) := by
  have hq : ((mv : ℤ) : ℚ) = ((z * (ov * 10 ^ (-(me - oe + 16)).toNat) : ℤ) : ℚ) := by
    push_cast
    rw [← zpow_natCast (10 : ℚ) (-(me - oe + 16)).toNat,
      Int.toNat_of_nonneg (by omega : (0 : ℤ) ≤ -(me - oe + 16))]
    apply mul_right_cancel₀ (zpow_ne_zero me ten_ne_zero_q)
    calc (mv : ℚ) * 10 ^ me
        = (z : ℚ) * (10 : ℚ) ^ (-16 : ℤ) * ((ov : ℚ) * 10 ^ oe) := hz
      _ = (z : ℚ) * (ov : ℚ) * ((10 : ℚ) ^ (-16 : ℤ) * 10 ^ oe) := by ring
      _ = (z : ℚ) * (ov : ℚ) * 10 ^ ((-16 : ℤ) + oe) := by
          rw [zpow_add₀ ten_ne_zero_q]
      _ = (z : ℚ) * (ov : ℚ) * 10 ^ (-(me - oe + 16) + me) := by
          rw [show (-16 : ℤ) + oe = -(me - oe + 16) + me from by ring]
      _ = (z : ℚ) * (ov : ℚ) * ((10 : ℚ) ^ (-(me - oe + 16)) * 10 ^ me) := by
          rw [zpow_add₀ ten_ne_zero_q]
      _ = (z : ℚ) * ((ov : ℚ) * (10 : ℚ) ^ (-(me - oe + 16))) * 10 ^ me := by ring
  exact_mod_cast hq

lemma exact_key_nonneg (mv me ov oe z : ℤ) (hz : (mv : ℚ) * (10 : ℚ) ^ me
      = (z : ℚ) * (10 : ℚ) ^ (-16 : ℤ) * ((ov : ℚ) * (10 : ℚ) ^ oe))
    (he : 0 ≤ me - oe + 16) :
    mv * 10 ^ (me - oe + 16).toNat = z * ov := by
  have hq : ((mv * 10 ^ (me - oe + 16).toNat : ℤ) : ℚ) = ((z * ov : ℤ) : ℚ) := by
    push_cast
    rw [← zpow_natCast (10 : ℚ) (me - oe + 16).toNat, Int.toNat_of_nonneg he]
    apply mul_right_cancel₀ (zpow_ne_zero (oe - 16) ten_ne_zero_q)
    calc (mv : ℚ) * 10 ^ (me - oe + 16) * 10 ^ (oe - 16)
        = (mv : ℚ) * 10 ^ (me - oe + 16 + (oe - 16)) := by
          rw [mul_assoc, ← zpow_add₀ ten_ne_zero_q]
      _ = (mv : ℚ) * 10 ^ me := by
          rw [show me - oe + 16 + (oe - 16) = me from by ring]
      _ = (z : ℚ) * (10 : ℚ) ^ (-16 : ℤ) * ((ov : ℚ) * 10 ^ oe) := hz
      _ = (z : ℚ) * (ov : ℚ) * ((10 : ℚ) ^ (-16 : ℤ) * 10 ^ oe) := by ring
      _ = (z : ℚ) * (ov : ℚ) * 10 ^ ((-16 : ℤ) + oe) := by
          rw [zpow_add₀ ten_ne_zero_q]
      _ = (z : ℚ) * (ov : ℚ) * 10 ^ (oe - 16) := by
          rw [show (-16 : ℤ) + oe = oe - 16 from by ring]
  exact_mod_cast hq

lemma tdiv_tmod_of_eq_mul {aa bb z : ℤ} (h : aa = z * bb) (hbb : bb ≠ 0) :
    aa.tdiv bb = z ∧ aa.tmod bb = 0 := by
  subst h
  exact ⟨Int.mul_tdiv_cancel z hbb, Int.mul_tmod_left z bb⟩

lemma Dec.quoRem_exact (m o : Dec) (ho : o.value ≠ 0) (z : ℤ)
    (hz : m.toRat = (z : ℚ) * (10 : ℚ) ^ (-16 : ℤ) * o.toRat) :
    ∃ re : ℤ, m.quoRem o 16 = (⟨z, -16⟩, ⟨0, re⟩) := by
  have hzq : (m.value : ℚ) * (10 : ℚ) ^ m.exp
      = (z : ℚ) * (10 : ℚ) ^ (-16 : ℤ) * ((o.value : ℚ) * (10 : ℚ) ^ o.exp) := hz
  simp only [Dec.quoRem]
  split_ifs with he
  · refine ⟨m.exp, ?_⟩
    rw [show -(m.exp - o.exp - -16) = -(m.exp - o.exp + 16) from by ring]
    have hbb : o.value * 10 ^ (-(m.exp - o.exp + 16)).toNat ≠ 0 :=
      mul_ne_zero ho (pow_ne_zero _ (by norm_num))
    have hkey := exact_key_neg m.value m.exp o.value o.exp z hzq (by omega)
    obtain ⟨hd, hm⟩ := tdiv_tmod_of_eq_mul hkey hbb
    rw [hd, hm]
  · refine ⟨-16 + o.exp, ?_⟩
    rw [show m.exp - o.exp - -16 = m.exp - o.exp + 16 from by ring]
    have hkey := exact_key_nonneg m.value m.exp o.value o.exp z hzq (by omega)
    obtain ⟨hd, hm⟩ := tdiv_tmod_of_eq_mul hkey ho
    rw [hd, hm]

lemma Dec.cmpInt_zero_abs_neg (x : ℤ) (o : Dec) (ho : o.value ≠ 0) :
    Dec.cmpInt ⟨0, x⟩ o.abs < 0 := by
  unfold Dec.cmpInt Dec.rescaleValue Dec.abs
  rw [Int.sign_eq_neg_one_iff_neg.mpr ?neg]
  · norm_num
  case neg =>
    have h1 : 0 < |o.value| * 10 ^ (o.exp - min x o.exp).toNat :=
      mul_pos (abs_pos.mpr ho) (pow_pos (by norm_num) _)
    simp only [zero_mul]
    omega

lemma Dec.toRat_div_exact (m o : Dec) (ho : o.value ≠ 0) (z : ℤ)
    (hz : m.toRat = (z : ℚ) * (10 : ℚ) ^ (-16 : ℤ) * o.toRat) :
    (m.div o).toRat = (z : ℚ) * (10 : ℚ) ^ (-16 : ℤ) := by
  obtain ⟨re, hqr⟩ := Dec.quoRem_exact m o ho z hz
  unfold Dec.div Dec.divRound
  rw [hqr]
  simp only [abs_zero, mul_zero]
  rw [if_pos (Dec.cmpInt_zero_abs_neg _ o ho)]
  unfold Dec.toRat
  norm_num

lemma alignForward_bounds (t I : ℤ) (hI : 0 < I) :
    t ≤ alignForward t I ∧ alignForward t I < t + I := by
  simp only [alignForward, truncTime]
  have h1 : 0 ≤ t.emod I := Int.emod_nonneg t (by omega)
  have h2 : t.emod I < I := Int.emod_lt_of_pos t hI
  split_ifs with h <;> omega

lemma bucketLoop_eq_map (I toEnd : ℤ) (hI : 0 < I) :
    ∀ (n fuel : ℕ) (b : ℤ), n ≤ fuel →
      (∀ i : ℕ, i < n → b + i * I < toEnd) →
      toEnd ≤ b + n * I →
      bucketLoop I toEnd fuel b = (List.range n).map (fun i : ℕ => b + (i : ℤ) * I) := by
  intro n
  induction n with
  | zero =>
    intro fuel b _ _ hge
    have hb : ¬ b < toEnd := by push_cast at hge; omega
    cases fuel with
    | zero => simp [bucketLoop]
    | succ f => simp [bucketLoop, hb]
  | succ n ih =>
    intro fuel b hfuel hlt hge
    cases fuel with
    | zero => omega
    | succ f =>
      have hb : b < toEnd := by
        have := hlt 0 (by omega)
        push_cast at this
        omega
      have hrest : bucketLoop I toEnd f (b + I)
          = (List.range n).map (fun i : ℕ => b + I + (i : ℤ) * I) := by
        apply ih f (b + I) (by omega)
        · intro i hi
          have := hlt (i + 1) (by omega)
          push_cast at this ⊢
          linarith
        · push_cast at hge ⊢
          linarith
      rw [show bucketLoop I toEnd (f + 1) b
            = if b < toEnd then b :: bucketLoop I toEnd f (b + I) else []
          from rfl,
        if_pos hb, hrest, List.range_succ_eq_map, List.map_cons, List.map_map]
      congr 1
      · push_cast
        ring
      · apply List.map_congr_left
        intro i _
        simp only [Function.comp_apply]
        push_cast
        ring

/-- C1: ProcessBucket returns a non-nil error exactly when advisory-lock
acquisition hits a backend error, or the gate lets the bucket proceed and the
official fetch fails, the official rate is zero, or the market fetch fails.
Lock contention, sample-upsert failure, alert-insert failure and notifier
failure (none of which occur on the right-hand side) yield a nil return. -/
theorem claim_C1 (env : Env) (bucket : ℤ) :
    exceptIsError (processBucket env bucket).1
      = (lockErrB env
        || (lockAcquiredB env
          && (officialErrB env || officialZeroB env || marketErrB env))) := by
  unfold processBucket lockErrB lockAcquiredB officialErrB officialZeroB marketErrB
  cases hl : acquireLock env with
  | err m => rfl
  | contention => rfl
  | acquired hu =>
    unfold executeBucket
    cases ho : env.officialResult with
    | error m => rfl
    | ok p =>
      obtain ⟨r, bn⟩ := p
      cases hm : env.marketResult with
      | error m2 =>
        cases hz : r.isZero <;> simp [exceptIsError, hz]
      | ok q =>
        obtain ⟨mr, qt, ql⟩ := q
        cases hz : r.isZero with
        | true => simp [exceptIsError, hz]
        | false =>
          simp only [hz, Bool.false_or, Bool.true_and, Bool.or_false]
          split_ifs <;> simp_all [exceptIsError]

/-- C2: if the gate does not skip the bucket and the official source reports
a rate of exactly zero with no fetch error, ProcessBucket returns an error,
hands nothing to the sample store, and leaves any sample table unchanged. -/
theorem claim_C2 (env : Env) (bucket : ℤ) (r : Dec) (bn : ℕ)
    (hgate : acquireLock env ≠ LockOutcome.contention)
    (hok : env.officialResult = .ok (r, bn))
    (hzero : r.toRat = 0) :
    exceptIsError (processBucket env bucket).1 = true ∧
    (processBucket env bucket).2.sampleUpsert = none ∧
    ∀ (tbl : List RateSample) (upOk : Bool),
      applySampleEffect (processBucket env bucket).2 upOk tbl = tbl := by
  have hz : r.isZero = true := by
    rw [Dec.isZero_iff]
    exact hzero
  unfold processBucket
  cases hl : acquireLock env with
  | err m => exact ⟨rfl, rfl, fun tbl upOk => rfl⟩
  | contention => exact absurd hl hgate
  | acquired hu =>
    unfold executeBucket
    rw [hok]
    simp only [hz, if_true]
    exact ⟨rfl, rfl, fun tbl upOk => rfl⟩

/-- C2 witness: zero official rate in a concrete environment. -/
theorem claim_C2_witness :
    exceptIsError (processBucket envZeroRate 0).1 = true ∧
    (processBucket envZeroRate 0).2.sampleUpsert = none ∧
    ∀ (tbl : List RateSample) (upOk : Bool),
      applySampleEffect (processBucket envZeroRate 0).2 upOk tbl = tbl :=
  claim_C2 envZeroRate 0 ⟨0, 5⟩ 7 (by decide) rfl (by simp [Dec.toRat])

/-- C3 counterexample: at market=1, official=3 the persisted deviation is the
16-digit rounded quotient scaled up, not the exact value -200/3; computed and
exact values differ. -/
theorem claim_C3_counterexample :
    Dec.toRat (deviation (Dec.ofInt 1) (Dec.ofInt 3))
      ≠ (Dec.toRat (Dec.ofInt 1) / Dec.toRat (Dec.ofInt 3) - 1) * 100 := by
  have hdev : deviation (Dec.ofInt 1) (Dec.ofInt 3) = ⟨-666666666666666700, -16⟩ := by
    decide
  rw [hdev]
  unfold Dec.toRat Dec.ofInt
  rw [ten_pow_neg16]
  norm_num

/-- C3 amended: whenever market/official is exactly representable with at
most 16 fractional decimal digits (shopspring DivisionPrecision), the
computed deviation_pct equals (market/official - 1) * 100 exactly in decimal
arithmetic; otherwise the quotient is first rounded to 16 fractional digits.
The spec examples official=100/market=102 and official=100/market=98 fall in
the exact case. -/
theorem claim_C3_amended (market official : Dec) (z : ℤ)
    (ho : official.toRat ≠ 0)
    (h : market.toRat / official.toRat = (z : ℚ) * (10 : ℚ) ^ (-16 : ℤ)) :
    (deviation market official).toRat
      = (market.toRat / official.toRat - 1) * 100 := by
  have hov : official.value ≠ 0 := by
    intro hv
    exact ho ((Dec.toRat_eq_zero_iff official).mpr hv)
  have hz : market.toRat = (z : ℚ) * (10 : ℚ) ^ (-16 : ℤ) * official.toRat :=
    (div_eq_iff ho).mp h
  unfold deviation
  rw [Dec.toRat_mul, Dec.toRat_sub, Dec.toRat_ofInt, Dec.toRat_ofInt,
    Dec.toRat_div_exact market official hov z hz, h]
  push_cast
  ring

/-- C3 witness: official=100, market=102 gives exactly 2; official=100,
market=98 gives exactly -2. -/
theorem claim_C3_witness :
    Dec.toRat (deviation (Dec.ofInt 102) (Dec.ofInt 100)) = 2 ∧
    Dec.toRat (deviation (Dec.ofInt 98) (Dec.ofInt 100)) = -2 := by
  constructor
  · rw [claim_C3_amended (Dec.ofInt 102) (Dec.ofInt 100) 10200000000000000
      (by rw [Dec.toRat_ofInt]; norm_num)
      (by rw [Dec.toRat_ofInt, Dec.toRat_ofInt, ten_pow_neg16]; norm_num)]
    rw [Dec.toRat_ofInt, Dec.toRat_ofInt]
    norm_num
  · rw [claim_C3_amended (Dec.ofInt 98) (Dec.ofInt 100) 9800000000000000
      (by rw [Dec.toRat_ofInt]; norm_num)
      (by rw [Dec.toRat_ofInt, Dec.toRat_ofInt, ten_pow_neg16]; norm_num)]
    rw [Dec.toRat_ofInt, Dec.toRat_ofInt]
    norm_num

/-- C7: with lock key 0 or no locking backend, the gate is a no-op:
acquisition reports acquired with no error and a nil (no-op) release, and
ProcessBucket always executes the bucket - it can never skip for contention. -/
theorem claim_C7 (env : Env) (bucket : ℤ)
    (h : env.lockKey = 0 ∨ env.hasLocker = false) :
    acquireLock env = .acquired false ∧
    processBucket env bucket = executeBucket env bucket := by
  have hA : acquireLock env = .acquired false := by
    unfold acquireLock
    rw [if_pos h]
  refine ⟨hA, ?_⟩
  unfold processBucket
  rw [hA]

/-- C7 witness: lock key 0 with a contended backend still executes. -/
theorem claim_C7_witness :
    acquireLock envKeyZero = .acquired false ∧
    processBucket envKeyZero 0 = executeBucket envKeyZero 0 :=
  claim_C7 envKeyZero 0 (Or.inl rfl)

/-- C4: with alerting enabled, a notifier wired, a nonzero threshold and an
alert store, a successfully fetched bucket has its alert record inserted and
its notification dispatched exactly when the absolute deviation is strictly
greater than the threshold; equality triggers nothing. -/
theorem claim_C4 (env : Env) (bucket : ℤ) (r : Dec) (bn : ℕ) (mr : Dec)
    (q ql : String)
    (hAlerts : env.alertsOn = true) (hNotif : env.hasNotifier = true)
    (hThr : env.threshold.isZero = false) (hAlertStore : env.hasAlertStore = true)
    (hOff : env.officialResult = .ok (r, bn)) (hNz : r.isZero = false)
    (hMkt : env.marketResult = .ok (mr, q, ql)) :
    ((executeBucket env bucket).2.alertInsert ≠ none ∧
      (executeBucket env bucket).2.notifyAttempt = true)
      ↔ env.threshold.toRat < |(deviation mr r).toRat| := by
  rw [← Dec.toRat_abs, ← Dec.greaterThan_iff]
  unfold executeBucket
  rw [hOff, hMkt]
  simp only [hNz, Bool.false_eq_true, if_false, hAlerts, hNotif, hThr,
    hAlertStore, Bool.not_false, Bool.true_and]
  cases hgt : (deviation mr r).abs.greaterThan env.threshold with
  | true => simp [hgt]
  | false => simp [hgt]

/-- C4 witness: threshold 2, official 100; market 103 (deviation 3) inserts
and notifies, market 102 (deviation exactly 2) does neither. -/
theorem claim_C4_witness :
    ((executeBucket envDev3 0).2.alertInsert ≠ none ∧
      (executeBucket envDev3 0).2.notifyAttempt = true) ∧
    (executeBucket envDev2 0).2.alertInsert = none ∧
    (executeBucket envDev2 0).2.notifyAttempt = false := by
  refine ⟨?_, by decide, by decide⟩
  apply (claim_C4 envDev3 0 ⟨100, 0⟩ 1 ⟨103, 0⟩ "raw" "optimal"
    rfl rfl rfl rfl rfl rfl rfl).mpr
  have hdev : deviation (⟨103, 0⟩ : Dec) ⟨100, 0⟩ = ⟨30000000000000000, -16⟩ := by
    decide
  rw [hdev]
  unfold Dec.toRat
  rw [show (⟨30000000000000000, -16⟩ : Dec).value = (30000000000000000 : ℤ) from rfl,
    show (⟨30000000000000000, -16⟩ : Dec).exp = (-16 : ℤ) from rfl,
    show envDev3.threshold = (⟨2, 0⟩ : Dec) from rfl, ten_pow_neg16]
  rw [abs_of_pos (by norm_num)]
  norm_num

/-- C5: for a positive interval, nextBoundary is strictly after now in both
alignment modes; with alignment disabled it is now + interval, and with
alignment enabled it is the truncation of now (which is never after now)
advanced by one interval. -/
theorem claim_C5 (I now : ℤ) (hI : 0 < I) :
    now < nextTick false I now ∧ nextTick false I now = now + I ∧
    now < nextTick true I now ∧
    nextTick true I now = truncTime now I + I ∧ truncTime now I ≤ now := by
  have h1 : 0 ≤ now.emod I := Int.emod_nonneg now (by omega)
  have h2 : now.emod I < I := Int.emod_lt_of_pos now hI
  have htr : truncTime now I ≤ now := by
    unfold truncTime
    omega
  have hcond : ¬ now < now - now.emod I := by omega
  have haligned : nextTick true I now = truncTime now I + I := by
    simp only [nextTick, truncTime, Bool.not_true, if_false, decide_eq_true_eq]
    simp [hcond]
  refine ⟨?_, ?_, ?_, haligned, htr⟩
  · simp only [nextTick, Bool.not_false, if_true]
    omega
  · simp only [nextTick, Bool.not_false, if_true]
  · rw [haligned]
    unfold truncTime
    omega

/-- C5 witness: interval 5 minutes (300 s); now = 12:03:00 (43380 s) gives
12:05:00 (43500), and now = 12:05:00 exactly gives 12:10:00 (43800). -/
theorem claim_C5_witness :
    nextTick true 300 43380 = 43500 ∧ nextTick true 300 43500 = 43800 ∧
    43380 < nextTick true 300 43380 ∧ 43500 < nextTick true 300 43500 := by
  refine ⟨by decide, by decide, ?_, ?_⟩
  · exact (claim_C5 300 43380 (by decide)).2.2.1
  · exact (claim_C5 300 43500 (by decide)).2.2.1

/-- C6: the scheduler loop ends only when cancellation is observed - over any
finite run, a cancelled outcome implies some event was a cancellation, and a
run of on-time timer fires whose ticks return arbitrary error outcomes never
terminates and arms boundaries in fixed cadence: after k ticks the armed
boundary is the initial boundary plus k intervals. -/
theorem claim_C6 (I : ℤ) (align : Bool) (next : ℤ)
    (events : List (ℤ × Option Bool)) (errs : List Bool) :
    ((runLoop I align next events).isCancelled = true →
      ∃ p ∈ events, p.2 = none) ∧
    runLoop I align next (onTimeFires next I errs)
      = .running (next + errs.length * I) := by
  constructor
  · induction events generalizing next with
    | nil =>
      intro hc
      simp [runLoop, RunOutcome.isCancelled] at hc
    | cons p rest ih =>
      intro hc
      obtain ⟨now, ev⟩ := p
      cases ev with
      | none => exact ⟨(now, none), List.mem_cons_self _ _, rfl⟩
      | some e =>
        simp only [runLoop] at hc
        obtain ⟨p2, hp2, hpev⟩ := ih _ hc
        exact ⟨p2, List.mem_cons_of_mem _ hp2, hpev⟩
  · induction errs generalizing next with
    | nil => simp [runLoop, onTimeFires]
    | cons e es ih =>
      simp only [onTimeFires, runLoop]
      rw [if_neg (by omega : ¬ next - next < 0), ih (next + I)]
      congr 1
      simp only [List.length_cons]
      push_cast
      ring

/-- C6 witness: a cancel event terminates; two on-time fires, the first tick
failing, leave the loop running two intervals later. -/
theorem claim_C6_witness :
    (∃ p ∈ [((7 : ℤ), (none : Option Bool))], p.2 = none) ∧
    runLoop 300 true 0 (onTimeFires 0 300 [true, false]) = .running 600 := by
  refine ⟨?_, ?_⟩
  · exact (claim_C6 300 true 0 [((7 : ℤ), (none : Option Bool))] []).1 (by decide)
  · have h := (claim_C6 300 true 0 [] [true, false]).2
    simpa using h

/-- C8: when the half-open range is an exact number m of intervals, backfill
enumerates exactly m buckets, forming the arithmetic progression starting at
alignForward(from) with step equal to the interval, strictly increasing, each
at or after the range start and strictly before its end. -/
theorem claim_C8 (I lo hi : ℤ) (m : ℕ) (hI : 0 < I) (hm : hi = lo + m * I) :
    backfillBuckets I lo hi
        = (List.range m).map (fun i : ℕ => alignForward lo I + (i : ℤ) * I) ∧
    (backfillBuckets I lo hi).length = m ∧
    (∀ b ∈ backfillBuckets I lo hi, lo ≤ b ∧ b < hi) ∧
    List.Pairwise (· < ·) (backfillBuckets I lo hi) := by
  obtain ⟨hlb, hub⟩ := alignForward_bounds lo I hI
  have hlt : ∀ i : ℕ, i < m → alignForward lo I + (i : ℤ) * I < hi := by
    intro i hilt
    have hi3 : ((i : ℤ) + 1) ≤ (m : ℤ) := by exact_mod_cast hilt
    have h4 : ((i : ℤ) + 1) * I ≤ (m : ℤ) * I :=
      mul_le_mul_of_nonneg_right hi3 (le_of_lt hI)
    have hexp : ((i : ℤ) + 1) * I = (i : ℤ) * I + I := by ring
    rw [hexp] at h4
    rw [hm]
    linarith
  have hge : hi ≤ alignForward lo I + (m : ℤ) * I := by
    rw [hm]
    linarith
  have hfuel : m ≤ (hi - alignForward lo I).toNat := by
    rcases Nat.eq_zero_or_pos m with h0 | hpos
    · omega
    · have hm1 : (1 : ℤ) ≤ (m : ℤ) := by exact_mod_cast hpos
      have h4 : ((m : ℤ) - 1) * 1 ≤ ((m : ℤ) - 1) * I :=
        mul_le_mul_of_nonneg_left (by omega : (1 : ℤ) ≤ I)
          (by linarith : (0 : ℤ) ≤ (m : ℤ) - 1)
      have h6 : ((m : ℤ) - 1) * I = (m : ℤ) * I - I := by ring
      have h7 : (m : ℤ) - 1 < hi - alignForward lo I := by
        rw [hm]
        linarith
      omega
  have hmap : backfillBuckets I lo hi
      = (List.range m).map (fun i : ℕ => alignForward lo I + (i : ℤ) * I) :=
    bucketLoop_eq_map I hi hI m _ _ hfuel hlt hge
  refine ⟨hmap, ?_, ?_, ?_⟩
  · rw [hmap]
    simp
  · rw [hmap]
    intro b hb
    simp only [List.mem_map, List.mem_range] at hb
    obtain ⟨i, hilt, rfl⟩ := hb
    refine ⟨?_, hlt i hilt⟩
    have hnn : 0 ≤ (i : ℤ) * I := mul_nonneg (by positivity) (le_of_lt hI)
    linarith
  · rw [hmap]
    refine List.Pairwise.map _ ?_ (List.pairwise_lt_range m)
    intro a b hab
    have hab2 : (a : ℤ) < (b : ℤ) := by exact_mod_cast hab
    have := mul_lt_mul_of_pos_right hab2 hI
    linarith

/-- C8 witness: interval 5, range 3 to 13 holds exactly two intervals and
yields the two aligned buckets 5 and 10. -/
theorem claim_C8_witness :
    (backfillBuckets 5 3 13).length = 2 ∧
    (∀ b ∈ backfillBuckets 5 3 13, (3 : ℤ) ≤ b ∧ b < 13) ∧
    backfillBuckets 5 3 13 = [5, 10] := by
  have h := claim_C8 5 3 13 2 (by decide) (by decide)
  exact ⟨h.2.1, h.2.2.1, by decide⟩

/-- C9: the zero guard rejects only an exactly-zero official rate - a
strictly negative official rate passes the guard: the bucket completes
without error and hands the store a sample with status complete whose
deviation is the computed (market/official - 1) * 100 decimal value. -/
theorem claim_C9 (env : Env) (bucket : ℤ) (r : Dec) (bn : ℕ) (mr : Dec)
    (q ql : String)
    (hOff : env.officialResult = .ok (r, bn)) (hNeg : r.toRat < 0)
    (hMkt : env.marketResult = .ok (mr, q, ql)) (hStore : env.hasStore = true) :
    (executeBucket env bucket).1 = .ok () ∧
    ∃ s : RateSample, (executeBucket env bucket).2.sampleUpsert = some s ∧
      s.status = "complete" ∧ s.deviationPct = deviation mr r ∧
      s.officialRate = r ∧ s.marketRate = mr := by
  have hNz : r.isZero = false := by
    cases hb : r.isZero with
    | false => rfl
    | true =>
      have h0 : r.toRat = 0 := (Dec.isZero_iff r).mp hb
      linarith
  unfold executeBucket
  rw [hOff, hMkt]
  simp only [hNz, Bool.false_eq_true, if_false, hStore, if_true]
  split_ifs <;> exact ⟨rfl, _, rfl, rfl, rfl, rfl, rfl⟩

/-- C9 witness: official -5, market 1 completes with status complete. -/
theorem claim_C9_witness :
    (executeBucket envNegRate 0).1 = .ok () ∧
    ∃ s : RateSample, (executeBucket envNegRate 0).2.sampleUpsert = some s ∧
      s.status = "complete" ∧ s.deviationPct = deviation ⟨1, 0⟩ ⟨-5, 0⟩ ∧
      s.officialRate = ⟨-5, 0⟩ ∧ s.marketRate = ⟨1, 0⟩ :=
  claim_C9 envNegRate 0 ⟨-5, 0⟩ 1 ⟨1, 0⟩ "raw" "optimal" rfl
    (by norm_num [Dec.toRat]) rfl rfl

/-- C10: MarkSampleErrored never creates a row (the table length is
unchanged); with no matching bucket it returns the no-rows error and leaves
the table unchanged; with a matching row it succeeds and rewrites exactly the
status and error fields of the matching rows, leaving every other column and every
other row untouched. -/
theorem claim_C10 (tbl : List RateSample) (bucket : ℤ) (msg : String) :
    (markSampleErrored tbl bucket msg).2.length = tbl.length ∧
    ((∀ r ∈ tbl, r.bucket ≠ bucket) →
      exceptIsError (markSampleErrored tbl bucket msg).1 = true ∧
      (markSampleErrored tbl bucket msg).2 = tbl) ∧
    ((∃ r ∈ tbl, r.bucket = bucket) →
      (markSampleErrored tbl bucket msg).1 = .ok ()) ∧
    (∀ (i : ℕ) (h1 : i < tbl.length)
      (h2 : i < (markSampleErrored tbl bucket msg).2.length),
      ((tbl.get ⟨i, h1⟩).bucket ≠ bucket →
        (markSampleErrored tbl bucket msg).2.get ⟨i, h2⟩ = tbl.get ⟨i, h1⟩) ∧
      ((tbl.get ⟨i, h1⟩).bucket = bucket →
        (markSampleErrored tbl bucket msg).2.get ⟨i, h2⟩
          = { tbl.get ⟨i, h1⟩ with status := "errored", error := some msg })) := by
  have hlen : (markSampleErrored tbl bucket msg).2.length = tbl.length := by
    simp [markSampleErrored]
  have hget : ∀ (i : ℕ) (h1 : i < tbl.length)
      (h2 : i < (markSampleErrored tbl bucket msg).2.length),
      (markSampleErrored tbl bucket msg).2.get ⟨i, h2⟩
        = if (tbl.get ⟨i, h1⟩).bucket == bucket
          then { tbl.get ⟨i, h1⟩ with status := "errored", error := some msg }
          else tbl.get ⟨i, h1⟩ := by
    intro i h1 h2
    simp only [markSampleErrored] at h2 ⊢
    rw [List.get_map]
  refine ⟨hlen, ?_, ?_, ?_⟩
  · intro hno
    have haff : tbl.countP (fun r => r.bucket == bucket) = 0 :=
      List.countP_eq_zero.mpr (fun r hr => by simp [beq_iff_eq, hno r hr])
    constructor
    · simp [markSampleErrored, haff, exceptIsError]
    · apply List.ext_get hlen
      intro n h2 h1
      rw [hget n h1 h2]
      rw [if_neg (by
        simp only [beq_iff_eq]
        exact hno _ (List.get_mem tbl n h1))]
  · intro hex
    obtain ⟨r, hr, hrb⟩ := hex
    have haff : 0 < tbl.countP (fun r => r.bucket == bucket) :=
      List.countP_pos.mpr ⟨r, hr, by simp [beq_iff_eq, hrb]⟩
    have hne : tbl.countP (fun r => r.bucket == bucket) ≠ 0 := by omega
    simp [markSampleErrored, hne]
  · intro i h1 h2
    constructor
    · intro hne
      rw [hget i h1 h2, if_neg (by simpa [beq_iff_eq] using hne)]
    · intro heq
      rw [hget i h1 h2, if_pos (by simpa [beq_iff_eq] using heq)]

/-- C10 witness: a two-row table; marking bucket 2 succeeds without changing
the length, and marking an absent bucket errors and leaves the table as-is. -/
theorem claim_C10_witness :
    (markSampleErrored [sampleRow 1, sampleRow 2] 2 "boom").1 = .ok () ∧
    (markSampleErrored [sampleRow 1, sampleRow 2] 2 "boom").2.length = 2 ∧
    exceptIsError (markSampleErrored [sampleRow 1, sampleRow 2] 9 "boom").1 = true ∧
    (markSampleErrored [sampleRow 1, sampleRow 2] 9 "boom").2
      = [sampleRow 1, sampleRow 2] := by
  have h2 := claim_C10 [sampleRow 1, sampleRow 2] 2 "boom"
  have h9 := claim_C10 [sampleRow 1, sampleRow 2] 9 "boom"
  have hno : ∀ r ∈ [sampleRow 1, sampleRow 2], r.bucket ≠ (9 : ℤ) := by decide
  refine ⟨h2.2.2.1 ⟨sampleRow 2, by decide, by decide⟩, h2.1, ?_, ?_⟩
  · exact (h9.2.1 hno).1
  · exact (h9.2.1 hno).2

end PriceDiff
